import Mathlib

/-!
Verification development for the soliplex chatbot streaming client.

The definitions below are a shallow embedding of the repository sources:
  * `src/lib/agui-client.ts` (transport: `AGUIClient.streamRun`, `AGUIClient.chat`)
  * `src/unnamed/part_003`  (the `useAGUIChat` hook: `sendMessage`, `clearMessages`,
    the event-reduction loop and local tool execution)

JavaScript builtins (`JSON.parse`, `JSON.stringify`, `crypto.randomUUID`) are
modelled explicitly: JSON by an executable parser and printer over a `Json`
inductive, and `crypto.randomUUID` by an id-supply function `Nat → String`
consumed in call order.
-/

namespace Chatbot

/-- JSON values, as produced by the JavaScript `JSON.parse` builtin.
Numbers keep their source lexeme, which is enough for the properties here
(no theorem identifies numerically equal lexemes). -/
inductive Json where
  | null : Json
  | bool (b : Bool) : Json
  | num (lexeme : String) : Json
  | str (s : String) : Json
  | arr (items : List Json) : Json
  | obj (fields : List (String × Json)) : Json

/-! ### An executable model of `JSON.parse` -/

def isJsonWs (c : Char) : Bool :=
  c = ' ' || c = '\t' || c = '\n' || c = '\r'

def skipWs : List Char → List Char
  | [] => []
  | c :: cs => if isJsonWs c then skipWs cs else c :: cs

def hexVal (c : Char) : Option Nat :=
  if '0' ≤ c ∧ c ≤ '9' then some (c.toNat - '0'.toNat)
  else if 'a' ≤ c ∧ c ≤ 'f' then some (c.toNat - 'a'.toNat + 10)
  else if 'A' ≤ c ∧ c ≤ 'F' then some (c.toNat - 'A'.toNat + 10)
  else none

/-- Decode one escape sequence after a backslash inside a JSON string literal. -/
def escDecode : List Char → Option (Char × List Char)
  | [] => none
  | e :: cs =>
    if e = '"' then some ('"', cs)
    else if e = '\\' then some ('\\', cs)
    else if e = '/' then some ('/', cs)
    else if e = 'b' then some ('\x08', cs)
    else if e = 'f' then some ('\x0c', cs)
    else if e = 'n' then some ('\n', cs)
    else if e = 'r' then some ('\r', cs)
    else if e = 't' then some ('\t', cs)
    else if e = 'u' then
      match cs with
      | h1 :: h2 :: h3 :: h4 :: cs4 =>
        match hexVal h1, hexVal h2, hexVal h3, hexVal h4 with
        | some a, some b, some c, some d =>
          some (Char.ofNat (((a * 16 + b) * 16 + c) * 16 + d), cs4)
        | _, _, _, _ => none
      | _ => none
    else none

/-- Parse the body of a JSON string literal (the opening quote already consumed). -/
def pStr : Nat → List Char → Option (String × List Char)
  | 0, _ => none
  | _, [] => none
  | fuel + 1, c :: cs =>
    if c = '"' then some ("", cs)
    else if c = '\\' then
      match escDecode cs with
      | none => none
      | some (ch, rest) =>
        match pStr fuel rest with
        | none => none
        | some (t, rest2) => some (String.mk (ch :: t.data), rest2)
    else if c.toNat < 32 then none
    else
      match pStr fuel cs with
      | none => none
      | some (t, rest2) => some (String.mk (c :: t.data), rest2)

/-- Split a leading run of decimal digits. -/
def takeDigits : List Char → List Char × List Char
  | [] => ([], [])
  | c :: cs =>
    if c.isDigit then
      let (d, r) := takeDigits cs
      (c :: d, r)
    else ([], c :: cs)

/-- Parse a JSON number token, returning its lexeme.
Grammar: `-? (0 | [1-9][0-9]*) (\.[0-9]+)? ([eE][+-]?[0-9]+)?`. -/
def pNum (s : List Char) : Option (String × List Char) :=
  let (sign, s1) := match s with
    | '-' :: r => (['-'], r)
    | _ => (([] : List Char), s)
  let (intPart, s2) := takeDigits s1
  match intPart with
  | [] => none
  | d0 :: ds =>
    if d0 = '0' ∧ ds ≠ [] then none
    else
      let hasDot : Bool := match s2 with
        | '.' :: _ => true
        | _ => false
      let (fracPart, s3) : List Char × List Char := match s2 with
        | '.' :: r =>
          let (fd, rr) := takeDigits r
          if fd = [] then ([], s2) else ('.' :: fd, rr)
        | _ => ([], s2)
      if s2 ≠ s3 ∨ hasDot = false then
        let (expPart, s4) : List Char × List Char := match s3 with
          | 'e' :: '+' :: r =>
            let (ed, rr) := takeDigits r
            if ed = [] then ([], s3) else ('e' :: '+' :: ed, rr)
          | 'e' :: '-' :: r =>
            let (ed, rr) := takeDigits r
            if ed = [] then ([], s3) else ('e' :: '-' :: ed, rr)
          | 'e' :: r =>
            let (ed, rr) := takeDigits r
            if ed = [] then ([], s3) else ('e' :: ed, rr)
          | 'E' :: '+' :: r =>
            let (ed, rr) := takeDigits r
            if ed = [] then ([], s3) else ('E' :: '+' :: ed, rr)
          | 'E' :: '-' :: r =>
            let (ed, rr) := takeDigits r
            if ed = [] then ([], s3) else ('E' :: '-' :: ed, rr)
          | 'E' :: r =>
            let (ed, rr) := takeDigits r
            if ed = [] then ([], s3) else ('E' :: ed, rr)
          | _ => ([], s3)
        some (String.mk (sign ++ intPart ++ fracPart ++ expPart), s4)
      else none

/-- Check for a literal keyword (`null`, `true`, `false`). -/
def stripLit : List Char → List Char → Option (List Char)
  | [], s => some s
  | _, [] => none
  | l :: ls, c :: cs => if l = c then stripLit ls cs else none

mutual

/-- Parse one JSON value (fuel-indexed; `parseJson` supplies ample fuel). -/
def pVal : Nat → List Char → Option (Json × List Char)
  | 0, _ => none
  | fuel + 1, s =>
    match skipWs s with
    | [] => none
    | c :: cs =>
      if c = 'n' then
        match stripLit ['u', 'l', 'l'] cs with
        | some r => some (Json.null, r)
        | none => none
      else if c = 't' then
        match stripLit ['r', 'u', 'e'] cs with
        | some r => some (Json.bool true, r)
        | none => none
      else if c = 'f' then
        match stripLit ['a', 'l', 's', 'e'] cs with
        | some r => some (Json.bool false, r)
        | none => none
      else if c = '"' then
        match pStr fuel cs with
        | some (t, r) => some (Json.str t, r)
        | none => none
      else if c = '[' then
        match skipWs cs with
        | ']' :: r => some (Json.arr [], r)
        | s2 =>
          match pVal fuel s2 with
          | none => none
          | some (v, r1) =>
            match pArrTail fuel r1 with
            | none => none
            | some (vs, r2) => some (Json.arr (v :: vs), r2)
      else if c = '\x7b' then
        match skipWs cs with
        | '\x7d' :: r => some (Json.obj [], r)
        | s2 =>
          match pField fuel s2 with
          | none => none
          | some (kv, r1) =>
            match pObjTail fuel r1 with
            | none => none
            | some (kvs, r2) => some (Json.obj (kv :: kvs), r2)
      else
        match pNum (c :: cs) with
        | some (t, r) => some (Json.num t, r)
        | none => none

/-- Parse the items of an array after the first value. -/
def pArrTail : Nat → List Char → Option (List Json × List Char)
  | 0, _ => none
  | fuel + 1, s =>
    match skipWs s with
    | ']' :: r => some ([], r)
    | ',' :: r =>
      match pVal fuel r with
      | none => none
      | some (v, r1) =>
        match pArrTail fuel r1 with
        | none => none
        | some (vs, r2) => some (v :: vs, r2)
    | _ => none

/-- Parse one `"key": value` field of an object. -/
def pField : Nat → List Char → Option ((String × Json) × List Char)
  | 0, _ => none
  | fuel + 1, s =>
    match skipWs s with
    | '"' :: cs =>
      match pStr fuel cs with
      | none => none
      | some (k, r1) =>
        match skipWs r1 with
        | ':' :: r2 =>
          match pVal fuel r2 with
          | none => none
          | some (v, r3) => some ((k, v), r3)
        | _ => none
    | _ => none

/-- Parse the fields of an object after the first field. -/
def pObjTail : Nat → List Char → Option (List (String × Json) × List Char)
  | 0, _ => none
  | fuel + 1, s =>
    match skipWs s with
    | '\x7d' :: r => some ([], r)
    | ',' :: r =>
      match pField fuel r with
      | none => none
      | some (kv, r1) =>
        match pObjTail fuel r1 with
        | none => none
        | some (kvs, r2) => some (kv :: kvs, r2)
    | _ => none

end

/-- Model of the JavaScript `JSON.parse` builtin: `some` on valid JSON text
(consumed completely, up to trailing whitespace), `none` where `JSON.parse`
would throw a `SyntaxError`. -/
def parseJson (s : String) : Option Json :=
  match pVal (2 * s.data.length + 4) s.data with
  | some (v, rest) => if skipWs rest = [] then some v else none
  | none => none

/-! ### An executable model of `JSON.stringify` -/

def hexDigit (n : Nat) : Char :=
  if n < 10 then Char.ofNat ('0'.toNat + n) else Char.ofNat ('a'.toNat + n - 10)

def escapeChar (c : Char) : String :=
  if c = '"' then "\\\""
  else if c = '\\' then "\\\\"
  else if c = '\x08' then "\\b"
  else if c = '\x0c' then "\\f"
  else if c = '\n' then "\\n"
  else if c = '\r' then "\\r"
  else if c = '\t' then "\\t"
  else if c.toNat < 32 then
    String.mk ['\\', 'u', '0', '0', hexDigit (c.toNat / 16), hexDigit (c.toNat % 16)]
  else String.mk [c]

def escapeString (s : String) : String :=
  s.data.foldl (fun a c => a ++ escapeChar c) ""

mutual

/-- Model of the JavaScript `JSON.stringify` builtin on JSON-representable values. -/
def stringifyJson : Json → String
  | .null => "null"
  | .bool true => "true"
  | .bool false => "false"
  | .num t => t
  | .str s => "\"" ++ escapeString s ++ "\""
  | .arr xs => "[" ++ stringifyList xs ++ "]"
  | .obj fs => "\x7b" ++ stringifyFields fs ++ "\x7d"

def stringifyList : List Json → String
  | [] => ""
  | [x] => stringifyJson x
  | x :: y :: xs => stringifyJson x ++ "," ++ stringifyList (y :: xs)

def stringifyFields : List (String × Json) → String
  | [] => ""
  | [(k, v)] => "\"" ++ escapeString k ++ "\":" ++ stringifyJson v
  | (k, v) :: kv :: xs =>
      "\"" ++ escapeString k ++ "\":" ++ stringifyJson v ++ "," ++ stringifyFields (kv :: xs)

end

/-! ### Transport: `AGUIClient.streamRun` (src/lib/agui-client.ts, lines 104-142)

The network and `TextDecoder` layers are modelled by taking the input as a
list of already-decoded text chunks of arbitrary sizes.  `streamRun` buffers
partial lines across chunk boundaries, handles only lines carrying the
`data: ` event-marker, ends on the `[DONE]` terminator payload, and skips
payloads that fail JSON parsing. -/

/-- One pass over the complete lines extracted from the buffer
(the `for (const line of lines)` loop, lines 130-140 of agui-client.ts).
Returns the decoded events and whether the `[DONE]` terminator was observed
(in the source, `return` from the generator). -/
def emitLines : List String → List Json × Bool
  | [] => ([], false)
  | l :: ls =>
    if l.data.take 6 = "data: ".data then
      let d : String := String.mk (l.data.drop 6)
      if d = "[DONE]" then ([], true)
      else
        match parseJson d with
        | some e =>
          let r := emitLines ls
          (e :: r.1, r.2)
        | none => emitLines ls
    else emitLines ls

/-- Model of the character-list part of `buffer.split("\n")`: split at every newline,
always yielding at least one (possibly empty) part. -/
def splitLinesAux : List Char → List (List Char)
  | [] => [[]]
  | c :: cs =>
    if c = '\n' then [] :: splitLinesAux cs
    else
      match splitLinesAux cs with
      | [] => [[c]]
      | l :: ls => (c :: l) :: ls

/-- Model of `buffer.split("\n")` (agui-client.ts, line 127). -/
def splitNl (s : String) : List String :=
  (splitLinesAux s.data).map String.mk

/-- The chunk-consuming loop of `streamRun` (lines 122-141): append the chunk
to the buffer, split on newlines, keep the trailing partial line buffered,
process the complete lines; a `[DONE]` terminator stops everything. -/
def runChunks : String → List String → List Json × Bool
  | _, [] => ([], false)
  | buf, c :: cs =>
    let parts := splitNl (buf ++ c)
    let r := emitLines parts.dropLast
    if r.2 then (r.1, true)
    else
      let rest := runChunks (parts.getLastD "") cs
      (r.1 ++ rest.1, rest.2)

/-- Model of `AGUIClient.streamRun`: the full sequence of events the
generator yields for a given chunked byte stream.  Events are raw `Json`
values, exactly as the source yields `JSON.parse(data) as AGUIEvent`. -/
def streamRun (chunks : List String) : List Json :=
  (runChunks "" chunks).1

/-! ### Data model (src/lib/agui-client.ts, src/unnamed/part_003) -/

inductive Role where
  | user : Role
  | assistant : Role
  | tool : Role
  deriving DecidableEq, Repr

/-- The `ToolCall` record from agui-client.ts: `{id, type: "function", function: {name, arguments}}`.
The constant `type: "function"` tag is omitted; `function.name` and
`function.arguments` are flattened. -/
structure ToolCall where
  id : String
  functionName : String
  argumentsJson : String
  deriving DecidableEq, Repr

/-- The `ChatMessage` record from agui-client.ts.  An absent `toolCalls` field is the
empty list; the optional `toolCallId`/`toolName` fields are `Option`s. -/
structure ChatMessage where
  id : String
  role : Role
  content : String
  toolCalls : List ToolCall := []
  toolCallId : Option String := none
  toolName : Option String := none
  deriving DecidableEq, Repr

/-- The `AGUIEvent` union (agui-client.ts, lines 251-264), with the fields the
reducer reads.  `otherEvent` stands for any other `type` value (the catch-all
variant). -/
inductive AGUIEvent where
  | textMessageStart (messageId : String) : AGUIEvent
  | textMessageContent (messageId : String) (delta : String) : AGUIEvent
  | textMessageEnd (messageId : String) : AGUIEvent
  | toolCallStart (toolCallId : String) (toolCallName : String) : AGUIEvent
  | toolCallArgs (toolCallId : String) (delta : String) : AGUIEvent
  | toolCallEnd (toolCallId : String) : AGUIEvent
  | runStarted (runId : String) (threadId : String) : AGUIEvent
  | runFinished (runId : String) (threadId : String) : AGUIEvent
  | runError (message : String) : AGUIEvent
  | thinkingTextMessageContent (delta : String) : AGUIEvent
  | otherEvent (ty : String) : AGUIEvent
  deriving DecidableEq, Repr

/-- The `ToolDefinition` record (agui-client.ts): a named local tool.  The handler models
the `Promise`-returning JavaScript handler: `.ok` is a fulfilled promise with a
JSON-representable value, `.error` a rejection carrying the surfaced message. -/
structure ToolDefinition where
  name : String
  handler : Json → Except String Json

/-- Lookup in `toolsMap = new Map(tools.map(t => [t.name, t]))`: with duplicate
names the `Map` constructor keeps the last entry. -/
def findTool (tools : List ToolDefinition) (name : String) : Option ToolDefinition :=
  tools.foldl (fun acc t => if t.name = name then some t else acc) none

/-- Model of `toolsMap.has(name)`. -/
def hasTool (tools : List ToolDefinition) (name : String) : Bool :=
  (findTool tools name).isSome

/-- Model of `executeClientTool` (part_003, lines 33-40): look the tool up, throw
`Unknown tool` if absent, otherwise run its handler. -/
def executeClientTool (tools : List ToolDefinition) (name : String) (args : Json) :
    Except String Json :=
  match findTool tools name with
  | none => .error ("Unknown tool: " ++ name)
  | some t => t.handler args

/-! ### The event-reduction loop of `useAGUIChat.sendMessage` (part_003, lines 42-253)

The `for await` loop mutates React state (`setMessages`, `setError`) and the
local accumulator variables; the embedding passes that mutable state
explicitly as `LoopState`.  Two ghost logs make the external interactions
observable: `chatCalls` records every message history handed to
`client.chat`, and `toolInvocations` records every local handler invocation
together with its parsed arguments. -/

/-- Per-`sendMessage` context: the registered tools, the id supply modelling
`crypto.randomUUID` (consumed in call order via the `ctr` counter), the
backend oracle giving the event stream answered to the n-th `client.chat`
call, and the captured `allMessages` / `userMessage` used to build the
continuation history. -/
structure Ctx where
  tools : List ToolDefinition
  supply : Nat → String
  oracle : Nat → List AGUIEvent
  allMessages : List ChatMessage
  userMessage : ChatMessage

/-- The mutable state of one `sendMessage` call. -/
structure LoopState where
  messages : List ChatMessage
  error : Option String
  currentMessageId : String
  currentContent : String
  currentToolCallId : String
  currentToolName : String
  currentToolArgs : String
  pendingToolCalls : List ToolCall
  ctr : Nat
  chatCalls : List (List ChatMessage)
  toolInvocations : List (String × Json)

attribute [ext] LoopState

/-- Model of `setMessages(prev => prev.map(m => m.id === mid ? {...m, content: c} : m))`. -/
def updContent (msgs : List ChatMessage) (mid : String) (c : String) : List ChatMessage :=
  msgs.map fun m => if m.id = mid then { m with content := c } else m

/-- The empty assistant message appended on `TEXT_MESSAGE_START` and on a
client-tool `TOOL_CALL_START`. -/
def newAssistantMessage (mid : String) : ChatMessage :=
  { id := mid, role := .assistant, content := "" }

/-- Model of `currentToolArgs || "{}"`: the empty string falls back to `"{}"`. -/
def paddedArgs (s : String) : String :=
  if s = "" then "\x7b\x7d" else s

/-- Stands for the message of the `SyntaxError` thrown by `JSON.parse` on
invalid input, which the tool-path `catch` surfaces via
`err instanceof Error ? err.message : ...`. -/
def jsonParseErrorMessage : String := "Unexpected token in JSON"

/-- One event of the nested continuation loop (part_003, lines 185-221):
only text-message events and `RUN_ERROR` are handled; everything else is
logged and ignored. -/
def processContEvent (st : LoopState) (e : AGUIEvent) : LoopState :=
  match e with
  | .textMessageStart mid =>
      { st with currentMessageId := mid, currentContent := "",
                messages := st.messages ++ [newAssistantMessage mid] }
  | .textMessageContent _ d =>
      let c := st.currentContent ++ d
      { st with currentContent := c,
                messages := updContent st.messages st.currentMessageId c }
  | .textMessageEnd _ => st
  | .runError m => { st with error := some m }
  | _ => st

/-- One event of the main `for await` loop (part_003, lines 67-245). -/
def processEvent (ctx : Ctx) (st : LoopState) (e : AGUIEvent) : LoopState :=
  match e with
  | .thinkingTextMessageContent _ => st
  | .textMessageStart mid =>
      { st with currentMessageId := mid, currentContent := "",
                messages := st.messages ++ [newAssistantMessage mid] }
  | .textMessageContent _ d =>
      let c := st.currentContent ++ d
      { st with currentContent := c,
                messages := updContent st.messages st.currentMessageId c }
  | .textMessageEnd _ => st
  | .toolCallStart tcid tname =>
      let st1 := { st with currentToolCallId := tcid, currentToolName := tname,
                           currentToolArgs := "" }
      if st.currentMessageId = "" ∧ hasTool ctx.tools tname = true then
        let mid := ctx.supply st.ctr
        { st1 with currentMessageId := mid, ctr := st.ctr + 1,
                   messages := st.messages ++ [newAssistantMessage mid] }
      else st1
  | .toolCallArgs _ d => { st with currentToolArgs := st.currentToolArgs ++ d }
  | .toolCallEnd _ =>
      let toolCall : ToolCall :=
        { id := st.currentToolCallId, functionName := st.currentToolName,
          argumentsJson := paddedArgs st.currentToolArgs }
      let pending := st.pendingToolCalls ++ [toolCall]
      let asstMsg : ChatMessage :=
        { id := st.currentMessageId, role := .assistant,
          content := st.currentContent, toolCalls := pending }
      let st1 := { st with pendingToolCalls := pending,
                           messages := st.messages.map fun m =>
                             if m.id = st.currentMessageId then asstMsg else m }
      if hasTool ctx.tools st.currentToolName = true then
        match parseJson (paddedArgs st.currentToolArgs) with
        | none => { st1 with error := some jsonParseErrorMessage }
        | some args =>
          let st2 := { st1 with toolInvocations :=
                         st1.toolInvocations ++ [(st.currentToolName, args)] }
          match executeClientTool ctx.tools st.currentToolName args with
          | .error msg => { st2 with error := some msg }
          | .ok r =>
            let toolMsg : ChatMessage :=
              { id := ctx.supply st2.ctr, role := .tool,
                content := stringifyJson r,
                toolCallId := some st.currentToolCallId,
                toolName := some st.currentToolName }
            let st3 := { st2 with ctr := st2.ctr + 1,
                                  messages := st2.messages ++ [toolMsg] }
            let updated := ctx.allMessages.dropLast
                             ++ [ctx.userMessage, asstMsg, toolMsg]
            let st4 := { st3 with chatCalls := st3.chatCalls ++ [updated] }
            (ctx.oracle st3.chatCalls.length).foldl processContEvent st4
      else st1
  | .runStarted _ _ => st
  | .runFinished _ _ => st
  | .runError m => { st with error := some m }
  | .otherEvent _ => st

/-- The whole event loop: fold `processEvent` over the stream in arrival order. -/
def processEvents (ctx : Ctx) (st : LoopState) (events : List AGUIEvent) : LoopState :=
  events.foldl (processEvent ctx) st

/-! ### The hook state and `sendMessage` / `clearMessages` -/

/-- The state the hook exposes to the UI: the message list, the loading flag,
the last error, and whether a client object (holding the thread/run identity)
is currently held in `clientRef`. -/
structure HookState where
  messages : List ChatMessage
  isLoading : Bool
  error : Option String
  hasClient : Bool
  deriving DecidableEq, Repr

attribute [ext] HookState

/-- The result of one `sendMessage` call: the new hook state plus the ghost
logs of transport invocations and local tool invocations. -/
structure SendResult where
  state : HookState
  chatCalls : List (List ChatMessage)
  toolInvocations : List (String × Json)

/-- Model of `useAGUIChat.sendMessage` (part_003, lines 42-253): set loading,
clear the error, append the user message, call `client.chat` with the full
history (the stream answered is `oracle 0`), fold the event loop over the
stream, and finally clear the loading flag.  `supply` models the successive
outputs of `crypto.randomUUID`; `supply 0` is the user-message id. -/
def sendMessage (tools : List ToolDefinition) (supply : Nat → String)
    (oracle : Nat → List AGUIEvent) (hook : HookState) (content : String) :
    SendResult :=
  let userMessage : ChatMessage := { id := supply 0, role := .user, content := content }
  let allMessages := hook.messages ++ [userMessage]
  let ctx : Ctx :=
    { tools := tools, supply := supply, oracle := oracle,
      allMessages := allMessages, userMessage := userMessage }
  let init : LoopState :=
    { messages := allMessages, error := none,
      currentMessageId := "", currentContent := "", currentToolCallId := "",
      currentToolName := "", currentToolArgs := "", pendingToolCalls := [],
      ctr := 1, chatCalls := [allMessages], toolInvocations := [] }
  let fin := processEvents ctx init (oracle 0)
  { state := { messages := fin.messages, isLoading := false,
               error := fin.error, hasClient := true },
    chatCalls := fin.chatCalls,
    toolInvocations := fin.toolInvocations }

/-- Model of `useAGUIChat.clearMessages` (part_003, lines 255-258):
`setMessages([])` and `clientRef.current = null`. -/
def clearMessages (hook : HookState) : HookState :=
  { hook with messages := [], hasClient := false }

/-! ### Shared concrete fixtures for witnesses and counterexamples -/

/-- A registered local tool with an always-succeeding handler (stands for the
built-in `get_current_time` tool of the widget). -/
def clockTool : ToolDefinition :=
  { name := "get_current_time", handler := fun _ => .ok (.str "12:00") }

/-- A registered local tool whose handler always rejects. -/
def boomTool : ToolDefinition :=
  { name := "boom", handler := fun _ => .error "boom failed" }

/-- A concrete id supply standing for successive `crypto.randomUUID` outputs. -/
def wSupply : Nat → String := fun n => "uuid-" ++ toString n

/-- The initial hook state (before any message is sent). -/
def hook0 : HookState :=
  { messages := [], isLoading := false, error := none, hasClient := false }

/-- A backend oracle answering `evs` to the first `client.chat` call and the
empty stream to any later one. -/
def oracleOf (evs : List AGUIEvent) : Nat → List AGUIEvent :=
  fun n => if n = 0 then evs else []

/-- A dummy user message for contexts used outside a full `sendMessage`. -/
def userW : ChatMessage := { id := "u", role := .user, content := "hi" }

/-- A context over the given tools with no interesting transport. -/
def mkCtx (tools : List ToolDefinition) : Ctx :=
  { tools := tools, supply := wSupply, oracle := fun _ => [],
    allMessages := [userW], userMessage := userW }

/-- A fresh loop state over the empty message list. -/
def st0 : LoopState :=
  { messages := [], error := none, currentMessageId := "", currentContent := "",
    currentToolCallId := "", currentToolName := "", currentToolArgs := "",
    pendingToolCalls := [], ctr := 1, chatCalls := [], toolInvocations := [] }

/-! ### C10 — `clearMessages` frame -/

/-- C10: `clearMessages` empties the message list and discards the client
holding the thread/run identity, and leaves the error and loading slots
unchanged; the error is only cleared at the start of the next `sendMessage`
(shown here for a send whose stream produces no events). -/
theorem clear_messages_frame (hook : HookState) (e : String) :
    (clearMessages hook).messages = [] ∧
    (clearMessages hook).hasClient = false ∧
    (clearMessages hook).error = hook.error ∧
    (clearMessages hook).isLoading = hook.isLoading ∧
    (∀ tools supply content,
       (sendMessage tools supply (fun _ => [])
          { clearMessages hook with error := some e } content).state.error = none) :=
  ⟨rfl, rfl, rfl, rfl, fun _ _ _ => rfl⟩

/-! ### C6 — message creation at `TOOL_CALL_START` -/

/-- C6 (amended): on `TOOL_CALL_START` a new empty assistant message is
appended exactly when the append-target id is still empty (no assistant
message has been opened in this stream yet) and the tool name is locally
registered; in every other case the message list is unchanged. -/
theorem tool_call_start_message_creation (ctx : Ctx) (st : LoopState)
    (tcid tname : String) :
    (processEvent ctx st (.toolCallStart tcid tname)).messages =
      if st.currentMessageId = "" ∧ hasTool ctx.tools tname = true
      then st.messages ++ [newAssistantMessage (ctx.supply st.ctr)]
      else st.messages := by
  by_cases h : st.currentMessageId = "" ∧ hasTool ctx.tools tname = true <;>
    simp [processEvent, h]

/-- Modelled from the spec (section 4.2): the nested micro-state tracking
whether an assistant message is currently open — a message-start event or a
tool-created assistant message opens it, a message-end event closes it.
Used only to state C6 in the terms of the spec itself for comparison with the code. -/
def specOpenAfter (tools : List ToolDefinition) (events : List AGUIEvent) : Bool :=
  events.foldl
    (fun opened e =>
      match e with
      | .textMessageStart _ => true
      | .textMessageEnd _ => false
      | .toolCallStart _ n => if opened then opened else hasTool tools n
      | _ => opened)
    false

/-- C6 counterexample: after `TEXT_MESSAGE_START(m1), TEXT_MESSAGE_END(m1)`
no assistant message is open in the sense of the spec, and `get_current_time` is
registered, so the claim requires a new assistant message to be opened by the
following `TOOL_CALL_START`; the append-target id in the code is still `"m1"`
(never reset by `TEXT_MESSAGE_END`), so no message is created. -/
theorem tool_call_start_spec_open_refuted :
    specOpenAfter [clockTool] [.textMessageStart "m1", .textMessageEnd "m1"] = false ∧
    hasTool [clockTool] "get_current_time" = true ∧
    (processEvent (mkCtx [clockTool])
        (processEvents (mkCtx [clockTool]) st0
          [.textMessageStart "m1", .textMessageEnd "m1"])
        (.toolCallStart "t1" "get_current_time")).messages
      = (processEvents (mkCtx [clockTool]) st0
          [.textMessageStart "m1", .textMessageEnd "m1"]).messages := by
  decide

/-! ### C3 — `RUN_ERROR` handling -/

/-- C3 (amended): a `RUN_ERROR{message}` event sets the error slot to that
message and leaves the message list (and all other loop state) unchanged, and
the loading flag always clears when `sendMessage` finishes; but processing
does NOT stop — the loop goes on folding the remaining events of the stream
over the updated state. -/
theorem run_error_sets_error_and_continues :
    (∀ ctx st msg, processEvent ctx st (.runError msg) = { st with error := some msg }) ∧
    (∀ ctx st msg rest,
       processEvents ctx st (.runError msg :: rest)
         = processEvents ctx { st with error := some msg } rest) ∧
    (∀ tools supply oracle hook content,
       (sendMessage tools supply oracle hook content).state.isLoading = false) :=
  ⟨fun _ _ _ => rfl, fun _ _ _ _ => rfl, fun _ _ _ _ _ => rfl⟩

/-- C3 counterexample: a stream carrying events after `RUN_ERROR{boom}`.
The error slot becomes `"boom"`, the completed assistant message `m1`
remains, and the loading flag clears — but the `TEXT_MESSAGE_START(m2)` /
`TEXT_MESSAGE_CONTENT(m2)` events arriving after the `RUN_ERROR` are still
applied (message `m2` with content `"X"` appears), refuting "processing of
that stream stops". -/
theorem run_error_does_not_stop_processing :
    (sendMessage [] wSupply
        (oracleOf [.textMessageStart "m1", .textMessageContent "m1" "Hello!",
                   .textMessageEnd "m1", .runError "boom",
                   .textMessageStart "m2", .textMessageContent "m2" "X"])
        hook0 "hi").state.error = some "boom" ∧
    ({ id := "m1", role := .assistant, content := "Hello!" } : ChatMessage)
      ∈ (sendMessage [] wSupply
          (oracleOf [.textMessageStart "m1", .textMessageContent "m1" "Hello!",
                     .textMessageEnd "m1", .runError "boom",
                     .textMessageStart "m2", .textMessageContent "m2" "X"])
          hook0 "hi").state.messages ∧
    (sendMessage [] wSupply
        (oracleOf [.textMessageStart "m1", .textMessageContent "m1" "Hello!",
                   .textMessageEnd "m1", .runError "boom",
                   .textMessageStart "m2", .textMessageContent "m2" "X"])
        hook0 "hi").state.isLoading = false ∧
    ({ id := "m2", role := .assistant, content := "X" } : ChatMessage)
      ∈ (sendMessage [] wSupply
          (oracleOf [.textMessageStart "m1", .textMessageContent "m1" "Hello!",
                     .textMessageEnd "m1", .runError "boom",
                     .textMessageStart "m2", .textMessageContent "m2" "X"])
          hook0 "hi").state.messages := by
  decide

/-! ### C7 — the `[DONE]` terminator stops the stream -/

/-- Auxiliary for C7: if the chunk loop reports the terminator within a chunk
list, appending further chunks changes nothing. -/
theorem runChunks_done_append (cs1 : List String) :
    ∀ (buf : String) (cs2 : List String), (runChunks buf cs1).2 = true →
      runChunks buf (cs1 ++ cs2) = runChunks buf cs1 := by
  induction cs1 with
  | nil => intro buf cs2 h; simp [runChunks] at h
  | cons c cs ih =>
    intro buf cs2 h
    simp only [runChunks, List.cons_append] at h ⊢
    by_cases hr : (emitLines (splitNl (buf ++ c)).dropLast).2 = true
    · simp [hr]
    · simp only [Bool.not_eq_true] at hr
      simp only [hr, if_neg Bool.false_ne_true, List.append_eq] at h ⊢
      have h2 : (runChunks ((splitNl (buf ++ c)).getLastD "") cs).2 = true := h
      rw [ih _ cs2 h2]

/-- C7: once a `[DONE]`-payload line has been observed while decoding a chunk
list, `streamRun` yields exactly the events of that prefix and ignores any
further bytes — appending arbitrary extra chunks (even well-formed event
lines) changes nothing; moreover within a single line batch the terminator
ends emission immediately, dropping all following lines. -/
theorem streamRun_terminator_stops (cs1 cs2 : List String) (ls : List String)
    (h : (runChunks "" cs1).2 = true) :
    streamRun (cs1 ++ cs2) = streamRun cs1 ∧
    emitLines ("data: [DONE]" :: ls) = ([], true) := by
  constructor
  · unfold streamRun
    rw [runChunks_done_append cs1 "" cs2 h]
  · rfl

/-- C7 witness: the terminator arrives, then a further well-formed event line
follows; the decoded event sequence is unchanged by the extra chunk. -/
theorem streamRun_terminator_stops_witness :
    (runChunks "" ["data: [DONE]\n"]).2 = true ∧
    (streamRun (["data: [DONE]\n"] ++ ["data: \x7b\"type\":\"RUN_STARTED\"\x7d\n"])
        = streamRun ["data: [DONE]\n"] ∧
     emitLines ("data: [DONE]" :: ["data: \x7b\"a\":1\x7d"]) = ([], true)) :=
  ⟨by decide,
   streamRun_terminator_stops ["data: [DONE]\n"]
     ["data: \x7b\"type\":\"RUN_STARTED\"\x7d\n"] ["data: \x7b\"a\":1\x7d"] (by decide)⟩

/-! ### C8 — malformed event lines are skipped -/

/-- C8: in the line-parsing loop of `streamRun`, an event-marker line whose
payload fails JSON parsing (and is not the terminator) is skipped: it emits
no event, does not end the stream, and every other line is decoded exactly
as if the malformed line were absent. -/
theorem malformed_line_skipped (ls1 : List String) (b : String) (ls2 : List String)
    (hb : parseJson b = none) (hd : b ≠ "[DONE]") :
    emitLines (ls1 ++ ("data: " ++ b) :: ls2) = emitLines (ls1 ++ ls2) := by
  induction ls1 with
  | nil =>
    have h6 : ("data: ".data).length = 6 := rfl
    have htake : ("data: " ++ b).data.take 6 = "data: ".data := by
      rw [String.data_append, ← h6]
      exact List.take_left _ _
    have hdrop : String.mk (("data: " ++ b).data.drop 6) = b := by
      rw [String.data_append, ← h6, List.drop_left]
    simp only [List.nil_append, emitLines, htake, hdrop, hb]
    simp [hd]
  | cons a ls ih =>
    show emitLines (a :: (ls ++ ("data: " ++ b) :: ls2)) = emitLines (a :: (ls ++ ls2))
    simp only [emitLines, List.append_eq]
    rw [ih]

/-- C8 witness: the malformed mid-stream line `data: {not valid json` emits
nothing and the following well-formed line is still decoded. -/
theorem malformed_line_skipped_witness :
    parseJson "\x7bnot valid json" = none ∧
    "\x7bnot valid json" ≠ "[DONE]" ∧
    emitLines (["data: \x7b\"type\":\"RUN_STARTED\"\x7d"]
        ++ ("data: " ++ "\x7bnot valid json") :: ["data: \x7b\"type\":\"RUN_FINISHED\"\x7d"])
      = emitLines (["data: \x7b\"type\":\"RUN_STARTED\"\x7d"]
        ++ ["data: \x7b\"type\":\"RUN_FINISHED\"\x7d"]) :=
  ⟨by rfl, by decide,
   malformed_line_skipped ["data: \x7b\"type\":\"RUN_STARTED\"\x7d"] "\x7bnot valid json"
     ["data: \x7b\"type\":\"RUN_FINISHED\"\x7d"] (by rfl) (by decide)⟩

/-! ### C4 — text deltas concatenate in arrival order -/

/-- Concatenation of a list of string fragments in order. -/
def concatList : List String → String
  | [] => ""
  | d :: ds => d ++ concatList ds

theorem updContent_of_not_mem (msgs : List ChatMessage) (mid c : String)
    (h : ∀ m ∈ msgs, m.id ≠ mid) : updContent msgs mid c = msgs := by
  induction msgs with
  | nil => rfl
  | cons m ms ih =>
    simp only [updContent, List.map_cons]
    rw [if_neg (h m (List.mem_cons_self m ms))]
    have := ih fun x hx => h x (List.mem_cons_of_mem m hx)
    simp only [updContent] at this
    rw [this]

theorem updContent_append (a b : List ChatMessage) (mid c : String) :
    updContent (a ++ b) mid c = updContent a mid c ++ updContent b mid c := by
  simp [updContent]

/-- Auxiliary for C4: folding a run of `TEXT_MESSAGE_CONTENT` deltas over a
state whose open assistant message `m1` holds `acc` appends the concatenation
of the deltas to it, and touches nothing else in the message list. -/
theorem contentFoldAux (ctx : Ctx) (m1 : String) (M : List ChatMessage)
    (hM : ∀ m ∈ M, m.id ≠ m1) :
    ∀ (deltas : List String) (st : LoopState) (acc : String),
      st.messages = M ++ [{ id := m1, role := .assistant, content := acc }] →
      st.currentMessageId = m1 → st.currentContent = acc →
      (((deltas.map fun d => AGUIEvent.textMessageContent m1 d).foldl
          (processEvent ctx) st).messages
          = M ++ [{ id := m1, role := .assistant, content := acc ++ concatList deltas }])
        ∧ ((deltas.map fun d => AGUIEvent.textMessageContent m1 d).foldl
            (processEvent ctx) st).currentMessageId = m1
        ∧ ((deltas.map fun d => AGUIEvent.textMessageContent m1 d).foldl
            (processEvent ctx) st).currentContent = acc ++ concatList deltas := by
  intro deltas
  induction deltas with
  | nil =>
    intro st acc h1 h2 h3
    refine ⟨?_, ?_, ?_⟩ <;> simp [concatList, h1, h2, h3]
  | cons d ds ih =>
    intro st acc h1 h2 h3
    simp only [List.map_cons, List.foldl_cons]
    have hstep : processEvent ctx st (.textMessageContent m1 d) =
        { st with currentContent := acc ++ d,
                  messages := updContent st.messages m1 (acc ++ d) } := by
      simp [processEvent, h2, h3]
    rw [hstep]
    have hmsgs : updContent st.messages m1 (acc ++ d)
        = M ++ [{ id := m1, role := .assistant, content := acc ++ d }] := by
      rw [h1, updContent_append, updContent_of_not_mem _ _ _ hM]
      simp [updContent]
    have hrec := ih { st with currentContent := acc ++ d,
                              messages := updContent st.messages m1 (acc ++ d) }
      (acc ++ d) hmsgs h2 rfl
    simpa [concatList, String.append_assoc] using hrec

/-- C4: for every sequence of `TEXT_MESSAGE_CONTENT` deltas between a
matching `TEXT_MESSAGE_START` / `TEXT_MESSAGE_END` pair (with an id not
already in the message list), the final content of that message equals the
concatenation of the deltas in arrival order, and no other message changes. -/
theorem text_deltas_concat (ctx : Ctx) (st : LoopState) (m1 : String)
    (deltas : List String) (h : ∀ m ∈ st.messages, m.id ≠ m1) :
    (processEvents ctx st
        ([AGUIEvent.textMessageStart m1]
          ++ deltas.map (fun d => AGUIEvent.textMessageContent m1 d)
          ++ [AGUIEvent.textMessageEnd m1])).messages
      = st.messages ++ [{ id := m1, role := .assistant, content := concatList deltas }] := by
  unfold processEvents
  rw [List.foldl_append, List.foldl_append]
  have hstart : List.foldl (processEvent ctx) st [AGUIEvent.textMessageStart m1]
      = { st with currentMessageId := m1, currentContent := "",
                  messages := st.messages ++ [newAssistantMessage m1] } := rfl
  rw [hstart]
  have hrec := contentFoldAux ctx m1 st.messages h deltas
    { st with currentMessageId := m1, currentContent := "",
              messages := st.messages ++ [newAssistantMessage m1] }
    "" rfl rfl rfl
  have hend : ∀ s : LoopState,
      List.foldl (processEvent ctx) s [AGUIEvent.textMessageEnd m1] = s := fun _ => rfl
  rw [hend]
  rw [hrec.1]
  rw [String.empty_append]

/-- C4 witness: the deltas of Scenario A (`"Hi"`, `" there"`) between the
`m1` start/end pair produce the single assistant message `"Hi there"`. -/
theorem text_deltas_concat_witness :
    (∀ m ∈ ({ messages := [{ id := "uuid-0", role := .user, content := "hello" }],
              error := none, currentMessageId := "", currentContent := "",
              currentToolCallId := "", currentToolName := "", currentToolArgs := "",
              pendingToolCalls := [], ctr := 1, chatCalls := [],
              toolInvocations := [] } : LoopState).messages, m.id ≠ "m1") ∧
    (processEvents (mkCtx [])
        { messages := [{ id := "uuid-0", role := .user, content := "hello" }],
          error := none, currentMessageId := "", currentContent := "",
          currentToolCallId := "", currentToolName := "", currentToolArgs := "",
          pendingToolCalls := [], ctr := 1, chatCalls := [], toolInvocations := [] }
        ([AGUIEvent.textMessageStart "m1"]
          ++ ["Hi", " there"].map (fun d => AGUIEvent.textMessageContent "m1" d)
          ++ [AGUIEvent.textMessageEnd "m1"])).messages
      = [{ id := "uuid-0", role := .user, content := "hello" },
         { id := "m1", role := .assistant, content := concatList ["Hi", " there"] }] :=
  ⟨by decide, text_deltas_concat _ _ _ _ (by decide)⟩

/-! ### C1 / C2 — argument parsing and handler dispatch at `TOOL_CALL_END` -/

/-- The nested continuation loop only ever touches the message list, the text
accumulators and the error slot: the ghost logs and the id counter pass
through unchanged. -/
theorem contFold_preserves (evs : List AGUIEvent) : ∀ st : LoopState,
    ((evs.foldl processContEvent st).toolInvocations = st.toolInvocations)
      ∧ ((evs.foldl processContEvent st).chatCalls = st.chatCalls)
      ∧ ((evs.foldl processContEvent st).ctr = st.ctr) := by
  induction evs with
  | nil => intro st; exact ⟨rfl, rfl, rfl⟩
  | cons e es ih =>
    intro st
    have hstep : (processContEvent st e).toolInvocations = st.toolInvocations
        ∧ (processContEvent st e).chatCalls = st.chatCalls
        ∧ (processContEvent st e).ctr = st.ctr := by
      cases e <;> simp [processContEvent]
    have hrec := ih (processContEvent st e)
    simp only [List.foldl_cons]
    exact ⟨hrec.1.trans hstep.1,
           hrec.2.1.trans hstep.2.1,
           hrec.2.2.trans hstep.2.2⟩

/-- C1 (amended): at `TOOL_CALL_END` on a locally registered tool, the
accumulated argument string (empty falls back to `"{}"`) is JSON-parsed;
if it parses, the handler is invoked with exactly the parsed value; if it
does not parse, the `JSON.parse` failure is caught — the handler is NOT
invoked and the failure is surfaced as the run error (no crash). -/
theorem tool_args_parse_dispatch (ctx : Ctx) (st : LoopState) (tcid : String)
    (h1 : hasTool ctx.tools st.currentToolName = true) :
    (∀ v, parseJson (paddedArgs st.currentToolArgs) = some v →
       (processEvent ctx st (.toolCallEnd tcid)).toolInvocations
         = st.toolInvocations ++ [(st.currentToolName, v)]) ∧
    (parseJson (paddedArgs st.currentToolArgs) = none →
       (processEvent ctx st (.toolCallEnd tcid)).toolInvocations = st.toolInvocations ∧
       (processEvent ctx st (.toolCallEnd tcid)).error = some jsonParseErrorMessage) := by
  constructor
  · intro v hv
    simp only [processEvent, h1, if_pos, hv]
    cases hex : executeClientTool ctx.tools st.currentToolName v with
    | error msg => simp [hex]
    | ok r =>
      simp only [hex]
      exact (contFold_preserves _ _).1
  · intro hv
    simp [processEvent, h1, hv]

/-- C1 witness: empty accumulated arguments fall back to `"{}"`, which parses
to the empty object; the registered handler is invoked with exactly it. -/
theorem tool_args_parse_dispatch_witness :
    hasTool [clockTool] "get_current_time" = true ∧
    (processEvent (mkCtx [clockTool])
        { st0 with currentToolCallId := "t1", currentToolName := "get_current_time" }
        (.toolCallEnd "t1")).toolInvocations
      = [("get_current_time", Json.obj [])] :=
  ⟨by decide,
   (tool_args_parse_dispatch (mkCtx [clockTool])
      { st0 with currentToolCallId := "t1", currentToolName := "get_current_time" }
      "t1" (by decide)).1 (Json.obj []) (by rfl)⟩

/-- C1 counterexample: non-empty argument fragments that are not valid JSON.
The claim predicts the handler is still invoked with `{}`; the code instead
lets `JSON.parse` throw, the `catch` sets the error, and the handler is never
invoked (the invocation log stays empty). -/
theorem invalid_args_handler_not_invoked :
    (processEvent (mkCtx [clockTool])
        { st0 with currentToolCallId := "t1", currentToolName := "get_current_time",
                   currentToolArgs := "\x7bnot json" }
        (.toolCallEnd "t1")).toolInvocations = [] ∧
    (processEvent (mkCtx [clockTool])
        { st0 with currentToolCallId := "t1", currentToolName := "get_current_time",
                   currentToolArgs := "\x7bnot json" }
        (.toolCallEnd "t1")).error = some jsonParseErrorMessage :=
  ⟨rfl, rfl⟩

/-- C2 (amended): when a locally registered handler rejects at
`TOOL_CALL_END`, the failure message is surfaced as the run-level error and
no continuation request is made to the transport layer (the `chatCalls` log
is unchanged, no tool message is appended); but the event loop does NOT
halt — the remaining events of the stream are still folded over the failed
state. -/
theorem tool_failure_no_continuation (ctx : Ctx) (st : LoopState) (tcid : String)
    (v : Json) (msg : String) (rest : List AGUIEvent)
    (h1 : hasTool ctx.tools st.currentToolName = true)
    (h2 : parseJson (paddedArgs st.currentToolArgs) = some v)
    (h3 : executeClientTool ctx.tools st.currentToolName v = .error msg) :
    (processEvent ctx st (.toolCallEnd tcid)).error = some msg ∧
    (processEvent ctx st (.toolCallEnd tcid)).chatCalls = st.chatCalls ∧
    (processEvent ctx st (.toolCallEnd tcid)).messages.length = st.messages.length ∧
    processEvents ctx st (.toolCallEnd tcid :: rest)
      = processEvents ctx (processEvent ctx st (.toolCallEnd tcid)) rest := by
  refine ⟨?_, ?_, ?_, rfl⟩ <;> simp [processEvent, h1, h2, h3]

/-- C2 witness: the always-rejecting tool `boom` surfaces `"boom failed"` and
leaves the transport log untouched. -/
theorem tool_failure_no_continuation_witness :
    (processEvent (mkCtx [boomTool])
        { st0 with currentToolCallId := "t1", currentToolName := "boom" }
        (.toolCallEnd "t1")).error = some "boom failed" ∧
    (processEvent (mkCtx [boomTool])
        { st0 with currentToolCallId := "t1", currentToolName := "boom" }
        (.toolCallEnd "t1")).chatCalls
      = ({ st0 with currentToolCallId := "t1", currentToolName := "boom" } : LoopState).chatCalls :=
  ⟨(tool_failure_no_continuation (mkCtx [boomTool])
      { st0 with currentToolCallId := "t1", currentToolName := "boom" }
      "t1" (Json.obj []) "boom failed" [] (by decide) (by rfl) (by rfl)).1,
   (tool_failure_no_continuation (mkCtx [boomTool])
      { st0 with currentToolCallId := "t1", currentToolName := "boom" }
      "t1" (Json.obj []) "boom failed" [] (by decide) (by rfl) (by rfl)).2.1⟩

/-- C2 counterexample: after the `boom` handler rejects, the later
`TEXT_MESSAGE_START(m9)` / `TEXT_MESSAGE_CONTENT(m9)` events are still
applied (message `m9` with content `"after"` appears in the final list),
refuting the claim that no further events of that turn are processed; the error
is surfaced and no continuation request is made (one transport call only). -/
theorem tool_failure_still_processes_later_events :
    (sendMessage [boomTool] wSupply
        (oracleOf [.toolCallStart "t1" "boom", .toolCallEnd "t1",
                   .textMessageStart "m9", .textMessageContent "m9" "after"])
        hook0 "go").state.error = some "boom failed" ∧
    (sendMessage [boomTool] wSupply
        (oracleOf [.toolCallStart "t1" "boom", .toolCallEnd "t1",
                   .textMessageStart "m9", .textMessageContent "m9" "after"])
        hook0 "go").chatCalls.length = 1 ∧
    ({ id := "m9", role := .assistant, content := "after" } : ChatMessage)
      ∈ (sendMessage [boomTool] wSupply
          (oracleOf [.toolCallStart "t1" "boom", .toolCallEnd "t1",
                     .textMessageStart "m9", .textMessageContent "m9" "after"])
          hook0 "go").state.messages :=
  ⟨rfl, rfl, by decide⟩

/-! ### C5 — successful local tool round trip -/

/-- The `ToolCall` record finalized at `TOOL_CALL_END`. -/
def toolCallOf (st : LoopState) : ToolCall :=
  { id := st.currentToolCallId, functionName := st.currentToolName,
    argumentsJson := paddedArgs st.currentToolArgs }

/-- The assistant message carrying the tool calls, as rebuilt at
`TOOL_CALL_END`. -/
def asstOf (st : LoopState) : ChatMessage :=
  { id := st.currentMessageId, role := .assistant, content := st.currentContent,
    toolCalls := st.pendingToolCalls ++ [toolCallOf st] }

/-- The `tool`-role result message appended after a successful local handler
invocation. -/
def toolMsgOf (ctx : Ctx) (st : LoopState) (r : Json) : ChatMessage :=
  { id := ctx.supply st.ctr, role := .tool, content := stringifyJson r,
    toolCallId := some st.currentToolCallId, toolName := some st.currentToolName }

/-- Processing `TOOL_CALL_END` on a registered tool whose arguments parse and whose
handler succeeds: the full resulting state, before the continuation events
are folded in. -/
theorem toolCallEnd_success (ctx : Ctx) (st : LoopState) (tcid : String) (v r : Json)
    (h1 : hasTool ctx.tools st.currentToolName = true)
    (h2 : parseJson (paddedArgs st.currentToolArgs) = some v)
    (h3 : executeClientTool ctx.tools st.currentToolName v = .ok r) :
    processEvent ctx st (.toolCallEnd tcid)
      = (ctx.oracle st.chatCalls.length).foldl processContEvent
          { st with
            pendingToolCalls := st.pendingToolCalls ++ [toolCallOf st],
            messages := (st.messages.map fun m =>
                if m.id = st.currentMessageId then asstOf st else m)
              ++ [toolMsgOf ctx st r],
            toolInvocations := st.toolInvocations ++ [(st.currentToolName, v)],
            ctr := st.ctr + 1,
            chatCalls := st.chatCalls
              ++ [ctx.allMessages.dropLast
                   ++ [ctx.userMessage, asstOf st, toolMsgOf ctx st r]] } := by
  simp [processEvent, h1, h2, h3, toolCallOf, asstOf, toolMsgOf]

/-- A continuation event does not start a text message with the given id. -/
def startAvoids (mid : String) (e : AGUIEvent) : Bool :=
  match e with
  | .textMessageStart m => if m = mid then false else true
  | _ => true

theorem mem_updContent_of_ne (msgs : List ChatMessage) (mid c : String)
    (m : ChatMessage) (hm : m ∈ msgs) (hne : m.id ≠ mid) :
    m ∈ updContent msgs mid c := by
  have h : (if m.id = mid then { m with content := c } else m) = m := if_neg hne
  have h2 : (if m.id = mid then { m with content := c } else m) ∈ updContent msgs mid c :=
    List.mem_map_of_mem _ hm
  rwa [h] at h2

/-- Folding continuation events preserves any message whose id is neither the
current append target nor the id of any `TEXT_MESSAGE_START` in the events. -/
theorem contFold_mem (evs : List AGUIEvent) : ∀ (st : LoopState) (m : ChatMessage),
    m ∈ st.messages → st.currentMessageId ≠ m.id →
    evs.all (startAvoids m.id) = true →
    m ∈ (evs.foldl processContEvent st).messages := by
  induction evs with
  | nil => intro st m hm _ _; exact hm
  | cons e es ih =>
    intro st m hm hcid hall
    rw [List.all_cons, Bool.and_eq_true] at hall
    simp only [List.foldl_cons]
    cases e with
    | textMessageStart mid =>
      have hmid : mid ≠ m.id := by
        by_contra hc
        simp [startAvoids, hc] at hall
      exact ih _ m (List.mem_append_left _ hm) hmid hall.2
    | textMessageContent mid d =>
      exact ih _ m (mem_updContent_of_ne _ _ _ m hm (fun hc => hcid hc.symm)) hcid hall.2
    | textMessageEnd mid => exact ih _ m hm hcid hall.2
    | toolCallStart a b => exact ih _ m hm hcid hall.2
    | toolCallArgs a b => exact ih _ m hm hcid hall.2
    | toolCallEnd a => exact ih _ m hm hcid hall.2
    | runStarted a b => exact ih _ m hm hcid hall.2
    | runFinished a b => exact ih _ m hm hcid hall.2
    | runError a => exact ih _ m hm hcid hall.2
    | thinkingTextMessageContent a => exact ih _ m hm hcid hall.2
    | otherEvent a => exact ih _ m hm hcid hall.2

/-- Folding a run of `TOOL_CALL_ARGS` fragments appends their concatenation
to the argument accumulator and changes nothing else. -/
theorem argsFoldAux (ctx : Ctx) (t1 : String) :
    ∀ (frags : List String) (st : LoopState),
      (frags.map fun f => AGUIEvent.toolCallArgs t1 f).foldl (processEvent ctx) st
        = { st with currentToolArgs := st.currentToolArgs ++ concatList frags } := by
  intro frags
  induction frags with
  | nil =>
    intro st
    simp [concatList]
  | cons f fs ih =>
    intro st
    simp only [List.map_cons, List.foldl_cons]
    have hstep : processEvent ctx st (.toolCallArgs t1 f)
        = { st with currentToolArgs := st.currentToolArgs ++ f } := rfl
    rw [hstep, ih]
    simp [concatList, String.append_assoc]

/-- C5: a stream carrying `TOOL_CALL_START(t1, n)`, `TOOL_CALL_ARGS`
fragments and `TOOL_CALL_END(t1)` for a locally registered tool whose
handler succeeds yields (a) exactly two transport invocations, the second
with a history extending the first by the assistant message carrying the
tool call and the `tool`-role result message holding the JSON-stringified
handler result, and (b) that tool message present in the final message list
(the freshness side conditions keep the continuation from colliding with the
generated tool-message id). -/
theorem local_tool_round_trip
    (tools : List ToolDefinition) (supply : Nat → String) (oracle : Nat → List AGUIEvent)
    (hook : HookState) (content : String)
    (t1 n rid tid : String) (frags : List String) (v r : Json)
    (h1 : hasTool tools n = true)
    (h2 : parseJson (paddedArgs (concatList frags)) = some v)
    (h3 : executeClientTool tools n v = .ok r)
    (h0 : oracle 0 = [AGUIEvent.runStarted rid tid, AGUIEvent.toolCallStart t1 n]
            ++ frags.map (fun f => AGUIEvent.toolCallArgs t1 f)
            ++ [AGUIEvent.toolCallEnd t1, AGUIEvent.runFinished rid tid])
    (hne : supply 1 ≠ supply 2)
    (hcont : (oracle 1).all (startAvoids (supply 2)) = true) :
    (sendMessage tools supply oracle hook content).chatCalls
      = [hook.messages ++ [{ id := supply 0, role := .user, content := content }],
         hook.messages
           ++ [{ id := supply 0, role := .user, content := content },
               { id := supply 1, role := .assistant, content := "",
                 toolCalls := [{ id := t1, functionName := n,
                                 argumentsJson := paddedArgs (concatList frags) }] },
               { id := supply 2, role := .tool, content := stringifyJson r,
                 toolCallId := some t1, toolName := some n }]] ∧
    ({ id := supply 2, role := .tool, content := stringifyJson r,
       toolCallId := some t1, toolName := some n } : ChatMessage)
      ∈ (sendMessage tools supply oracle hook content).state.messages := by
  have huser : ({ id := supply 0, role := .user, content := content } : ChatMessage)
      = { id := supply 0, role := .user, content := content } := rfl
  -- names for the three constructed messages
  set userMsg : ChatMessage := { id := supply 0, role := .user, content := content } with huserMsg
  set ctx : Ctx :=
    { tools := tools, supply := supply, oracle := oracle,
      allMessages := hook.messages ++ [userMsg], userMessage := userMsg } with hctx
  set init : LoopState :=
    { messages := hook.messages ++ [userMsg], error := none,
      currentMessageId := "", currentContent := "", currentToolCallId := "",
      currentToolName := "", currentToolArgs := "", pendingToolCalls := [],
      ctr := 1, chatCalls := [hook.messages ++ [userMsg]], toolInvocations := [] }
    with hinit
  have hsend : sendMessage tools supply oracle hook content
      = { state := { messages := (processEvents ctx init (oracle 0)).messages,
                     isLoading := false,
                     error := (processEvents ctx init (oracle 0)).error,
                     hasClient := true },
          chatCalls := (processEvents ctx init (oracle 0)).chatCalls,
          toolInvocations := (processEvents ctx init (oracle 0)).toolInvocations } := rfl
  -- phase 1: RUN_STARTED then TOOL_CALL_START opens the assistant message
  set stA : LoopState :=
    { init with currentToolCallId := t1, currentToolName := n, currentToolArgs := "",
                currentMessageId := supply 1, ctr := 2,
                messages := init.messages ++ [newAssistantMessage (supply 1)] }
    with hstA
  have hphase1 : processEvent ctx (processEvent ctx init (.runStarted rid tid))
      (.toolCallStart t1 n) = stA := by
    have hrs : processEvent ctx init (.runStarted rid tid) = init := rfl
    rw [hrs]
    show processEvent ctx init (.toolCallStart t1 n) = stA
    simp only [processEvent]
    split
    · rfl
    · rename_i hcond
      exact absurd ⟨by trivial, h1⟩ hcond
  -- phase 2: the argument fragments accumulate
  have hphase2 : (frags.map fun f => AGUIEvent.toolCallArgs t1 f).foldl
      (processEvent ctx) stA = { stA with currentToolArgs := concatList frags } := by
    rw [argsFoldAux]
    simp
  -- phase 3: TOOL_CALL_END executes the tool and issues the continuation call
  set stB : LoopState := { stA with currentToolArgs := concatList frags } with hstB
  set asst : ChatMessage :=
    { id := supply 1, role := .assistant, content := "",
      toolCalls := [{ id := t1, functionName := n,
                      argumentsJson := paddedArgs (concatList frags) }] } with hasst
  set toolRes : ChatMessage :=
    { id := supply 2, role := .tool, content := stringifyJson r,
      toolCallId := some t1, toolName := some n } with htoolRes
  have hasstOf : asstOf stB = asst := by
    simp [asstOf, toolCallOf, hstB, hstA, hinit, hasst]
  have htoolOf : toolMsgOf ctx stB r = toolRes := by
    simp [toolMsgOf, hstB, hstA, hinit, hctx, htoolRes]
  set stC : LoopState :=
    { stB with
      pendingToolCalls := [toolCallOf stB],
      messages := (stB.messages.map fun m =>
          if m.id = stB.currentMessageId then asst else m) ++ [toolRes],
      toolInvocations := [(n, v)],
      ctr := 3,
      chatCalls := [hook.messages ++ [userMsg],
                    hook.messages ++ [userMsg, asst, toolRes]] } with hstC
  have hphase3 : processEvent ctx stB (.toolCallEnd t1)
      = (oracle 1).foldl processContEvent stC := by
    have hB1 : hasTool ctx.tools stB.currentToolName = true := h1
    have hB2 : parseJson (paddedArgs stB.currentToolArgs) = some v := h2
    have hB3 : executeClientTool ctx.tools stB.currentToolName v = .ok r := h3
    have := toolCallEnd_success ctx stB t1 v r hB1 hB2 hB3
    rw [this, hasstOf, htoolOf]
    have hlen : stB.chatCalls.length = 1 := rfl
    rw [hlen]
    congr 1
    have hdrop : ctx.allMessages.dropLast = hook.messages := by
      simp [hctx]
    ext1 <;> simp [hstC, hstB, hstA, hinit, hctx, hdrop, hasstOf, htoolOf]
  -- assemble the run
  have hrun : processEvents ctx init (oracle 0)
      = processEvent ctx ((oracle 1).foldl processContEvent stC)
          (.runFinished rid tid) := by
    unfold processEvents
    rw [h0]
    rw [List.foldl_append, List.foldl_append]
    have e1 : List.foldl (processEvent ctx) init
        [AGUIEvent.runStarted rid tid, AGUIEvent.toolCallStart t1 n] = stA := by
      simp only [List.foldl_cons, List.foldl_nil]
      exact hphase1
    rw [e1, hphase2]
    simp only [List.foldl_cons, List.foldl_nil]
    rw [hphase3]
  have hfinished : ∀ s : LoopState,
      processEvent ctx s (.runFinished rid tid) = s := fun _ => rfl
  rw [hsend]
  constructor
  · show (processEvents ctx init (oracle 0)).chatCalls = _
    rw [hrun, hfinished]
    rw [(contFold_preserves (oracle 1) stC).2.1]
  · show toolRes ∈ (processEvents ctx init (oracle 0)).messages
    rw [hrun, hfinished]
    apply contFold_mem (oracle 1) stC toolRes
    · simp [hstC]
    · show stC.currentMessageId ≠ toolRes.id
      have : stC.currentMessageId = supply 1 := rfl
      rw [this]
      exact hne
    · exact hcont

/-- C5 witness: Scenario B — the registered `get_current_time` tool is
invoked with `{}`, its result message appears, and the transport is called a
second time with the extended history. -/
theorem local_tool_round_trip_witness :
    hasTool [clockTool] "get_current_time" = true ∧
    ((sendMessage [clockTool] wSupply
        (fun k => if k = 0
          then [AGUIEvent.runStarted "r" "th", AGUIEvent.toolCallStart "t1" "get_current_time"]
                 ++ (["\x7b\x7d"].map fun f => AGUIEvent.toolCallArgs "t1" f)
                 ++ [AGUIEvent.toolCallEnd "t1", AGUIEvent.runFinished "r" "th"]
          else if k = 1
          then [AGUIEvent.textMessageStart "m2",
                AGUIEvent.textMessageContent "m2" "It is noon",
                AGUIEvent.textMessageEnd "m2"]
          else [])
        hook0 "time?").chatCalls
      = [hook0.messages ++ [{ id := wSupply 0, role := .user, content := "time?" }],
         hook0.messages
           ++ [{ id := wSupply 0, role := .user, content := "time?" },
               { id := wSupply 1, role := .assistant, content := "",
                 toolCalls := [{ id := "t1", functionName := "get_current_time",
                                 argumentsJson := paddedArgs (concatList ["\x7b\x7d"]) }] },
               { id := wSupply 2, role := .tool,
                 content := stringifyJson (Json.str "12:00"),
                 toolCallId := some "t1", toolName := some "get_current_time" }]] ∧
     ({ id := wSupply 2, role := .tool, content := stringifyJson (Json.str "12:00"),
        toolCallId := some "t1", toolName := some "get_current_time" } : ChatMessage)
       ∈ (sendMessage [clockTool] wSupply
            (fun k => if k = 0
              then [AGUIEvent.runStarted "r" "th", AGUIEvent.toolCallStart "t1" "get_current_time"]
                     ++ (["\x7b\x7d"].map fun f => AGUIEvent.toolCallArgs "t1" f)
                     ++ [AGUIEvent.toolCallEnd "t1", AGUIEvent.runFinished "r" "th"]
              else if k = 1
              then [AGUIEvent.textMessageStart "m2",
                    AGUIEvent.textMessageContent "m2" "It is noon",
                    AGUIEvent.textMessageEnd "m2"]
              else [])
            hook0 "time?").state.messages) :=
  ⟨by decide,
   local_tool_round_trip [clockTool] wSupply
     (fun k => if k = 0
       then [AGUIEvent.runStarted "r" "th", AGUIEvent.toolCallStart "t1" "get_current_time"]
              ++ (["\x7b\x7d"].map fun f => AGUIEvent.toolCallArgs "t1" f)
              ++ [AGUIEvent.toolCallEnd "t1", AGUIEvent.runFinished "r" "th"]
       else if k = 1
       then [AGUIEvent.textMessageStart "m2",
             AGUIEvent.textMessageContent "m2" "It is noon",
             AGUIEvent.textMessageEnd "m2"]
       else [])
     hook0 "time?" "t1" "get_current_time" "r" "th" ["\x7b\x7d"]
     (Json.obj []) (Json.str "12:00")
     (by decide) (by rfl) (by rfl) rfl (by decide) (by decide)⟩

/-! ### C9 — replay determinism

The reducer consumes fresh ids from `crypto.randomUUID` (modelled by the
`supply`), so two replays over the same event list are NOT literally equal:
they differ in the generated ids.  The amended property is a simulation: an
injective renaming of the generated ids that fixes every event-carried and
pre-existing id carries one run onto the other. -/

/-- Rename a message id. -/
def renameMsg (ρ : String → String) (m : ChatMessage) : ChatMessage :=
  { m with id := ρ m.id }

/-- Rename every message id occurring in the loop state.  Tool-call ids,
names and argument strings come verbatim from events and are not renamed. -/
def renameState (ρ : String → String) (st : LoopState) : LoopState :=
  { st with messages := st.messages.map (renameMsg ρ),
            currentMessageId := ρ st.currentMessageId,
            chatCalls := st.chatCalls.map (List.map (renameMsg ρ)) }

/-- Rename the id-bearing parts of the context: the supply outputs and the
captured history. -/
def renameCtx (ρ : String → String) (ctx : Ctx) : Ctx :=
  { ctx with supply := fun k => ρ (ctx.supply k),
             allMessages := ctx.allMessages.map (renameMsg ρ),
             userMessage := renameMsg ρ ctx.userMessage }

/-- States that `ρ` fixes the message id of every `TEXT_MESSAGE_START` in the list. -/
def startIdsFixed (ρ : String → String) (events : List AGUIEvent) : Prop :=
  ∀ e ∈ events, ∀ mid, e = AGUIEvent.textMessageStart mid → ρ mid = mid

theorem updContent_rename (ρ : String → String) (hInj : Function.Injective ρ)
    (msgs : List ChatMessage) (mid c : String) :
    updContent (msgs.map (renameMsg ρ)) (ρ mid) c
      = (updContent msgs mid c).map (renameMsg ρ) := by
  induction msgs with
  | nil => rfl
  | cons m ms ih =>
    simp only [updContent, List.map_cons] at ih ⊢
    by_cases h : m.id = mid
    · rw [if_pos (show (renameMsg ρ m).id = ρ mid by rw [renameMsg, h]),
          if_pos h, ih]
      rfl
    · rw [if_neg (show (renameMsg ρ m).id ≠ ρ mid from fun hc => h (hInj hc)),
          if_neg h, ih]

theorem processContEvent_rename (ρ : String → String) (hInj : Function.Injective ρ)
    (st : LoopState) (e : AGUIEvent)
    (hfix : ∀ mid, e = AGUIEvent.textMessageStart mid → ρ mid = mid) :
    processContEvent (renameState ρ st) e = renameState ρ (processContEvent st e) := by
  cases e with
  | textMessageStart mid =>
    have h := hfix mid rfl
    simp [processContEvent, renameState, renameMsg, newAssistantMessage, h]
  | textMessageContent mid d =>
    simp [processContEvent, renameState, updContent_rename ρ hInj]
  | textMessageEnd mid => rfl
  | runError m => rfl
  | toolCallStart a b => rfl
  | toolCallArgs a b => rfl
  | toolCallEnd a => rfl
  | runStarted a b => rfl
  | runFinished a b => rfl
  | thinkingTextMessageContent a => rfl
  | otherEvent a => rfl

theorem contFold_rename (ρ : String → String) (hInj : Function.Injective ρ) :
    ∀ (evs : List AGUIEvent) (st : LoopState), startIdsFixed ρ evs →
      evs.foldl processContEvent (renameState ρ st)
        = renameState ρ (evs.foldl processContEvent st) := by
  intro evs
  induction evs with
  | nil => intro st _; rfl
  | cons e es ih =>
    intro st hfix
    simp only [List.foldl_cons]
    rw [processContEvent_rename ρ hInj st e
          (fun mid he => hfix e (List.mem_cons_self e es) mid he)]
    exact ih _ (fun x hx mid he => hfix x (List.mem_cons_of_mem e hx) mid he)

theorem replaceMsg_rename (ρ : String → String) (hInj : Function.Injective ρ)
    (msgs : List ChatMessage) (cid : String) (b : ChatMessage) :
    ((msgs.map (renameMsg ρ)).map fun m => if m.id = ρ cid then renameMsg ρ b else m)
      = (msgs.map fun m => if m.id = cid then b else m).map (renameMsg ρ) := by
  induction msgs with
  | nil => rfl
  | cons m ms ih =>
    simp only [List.map_cons] at ih ⊢
    by_cases h : m.id = cid
    · rw [if_pos (show (renameMsg ρ m).id = ρ cid by rw [renameMsg, h]), if_pos h, ih]
    · rw [if_neg (show (renameMsg ρ m).id ≠ ρ cid from fun hc => h (hInj hc)),
          if_neg h, ih]

/-- One main-loop event commutes with an injective renaming of the generated
ids that fixes the event-carried text-message ids. -/
theorem processEvent_rename (ρ : String → String) (hInj : Function.Injective ρ)
    (hEmpty : ρ "" = "") (ctx : Ctx) (st : LoopState) (e : AGUIEvent)
    (hOr : ∀ k, startIdsFixed ρ (ctx.oracle k))
    (hfix : ∀ mid, e = AGUIEvent.textMessageStart mid → ρ mid = mid) :
    processEvent (renameCtx ρ ctx) (renameState ρ st) e
      = renameState ρ (processEvent ctx st e) := by
  have hiff : (ρ st.currentMessageId = "") ↔ (st.currentMessageId = "") :=
    ⟨fun h => hInj (h.trans hEmpty.symm), fun h => by rw [h, hEmpty]⟩
  cases e with
  | textMessageStart mid =>
    have h := hfix mid rfl
    simp [processEvent, renameState, renameMsg, newAssistantMessage, h]
  | textMessageContent mid d =>
    simp [processEvent, renameState, updContent_rename ρ hInj]
  | textMessageEnd mid => rfl
  | runError m => rfl
  | runStarted a b => rfl
  | runFinished a b => rfl
  | thinkingTextMessageContent a => rfl
  | otherEvent a => rfl
  | toolCallArgs a d => rfl
  | toolCallStart tcid tname =>
    simp only [processEvent, renameCtx, renameState]
    split_ifs with h1 h2 h2
    · simp [renameState, renameMsg, newAssistantMessage]
    · exact absurd ⟨hiff.mp h1.1, h1.2⟩ h2
    · exact absurd ⟨hiff.mpr h2.1, h2.2⟩ h1
    · simp [renameState]
  | toolCallEnd tcid =>
    by_cases ht : hasTool ctx.tools st.currentToolName = true
    · cases hp : parseJson (paddedArgs st.currentToolArgs) with
      | none =>
        simp only [processEvent, renameCtx, renameState, ht, hp, if_pos]
        simp [renameState, renameMsg]
        intro a ha
        by_cases h : a.id = st.currentMessageId
        · simp [h]
        · have hne' : ¬(ρ a.id = ρ st.currentMessageId) := fun hc => h (hInj hc)
          simp [h, hne']
      | some v =>
        cases hex : executeClientTool ctx.tools st.currentToolName v with
        | error msg =>
          simp only [processEvent, renameCtx, renameState, ht, hp, hex, if_pos]
          simp [renameState, renameMsg]
          intro a ha
          by_cases h : a.id = st.currentMessageId
          · simp [h]
          · have hne' : ¬(ρ a.id = ρ st.currentMessageId) := fun hc => h (hInj hc)
            simp [h, hne']
        | ok r =>
          have hL := toolCallEnd_success (renameCtx ρ ctx) (renameState ρ st) tcid v r
            (by exact ht) (by exact hp) (by exact hex)
          have hRin := toolCallEnd_success ctx st tcid v r ht hp hex
          rw [hL, hRin, ← contFold_rename ρ hInj _ _ (hOr _)]
          have hlen : (renameState ρ st).chatCalls.length = st.chatCalls.length := by
            simp [renameState]
          rw [show (renameCtx ρ ctx).oracle = ctx.oracle from rfl, hlen]
          congr 1
          ext1 <;>
            simp [renameState, renameCtx, renameMsg, toolCallOf, asstOf, toolMsgOf,
                  List.map_append, List.map_dropLast]
          all_goals
            intro a ha
          all_goals
            by_cases h : a.id = st.currentMessageId
          all_goals
            simp [h]
          all_goals
            intro hcc
          all_goals
            exact absurd (hInj hcc) h
    · simp only [processEvent, renameCtx, renameState, ht, if_neg]
      simp [renameState, renameMsg, ht]
      intro a ha
      by_cases h : a.id = st.currentMessageId
      · simp [h]
      · have hne' : ¬(ρ a.id = ρ st.currentMessageId) := fun hc => h (hInj hc)
        simp [h, hne']

theorem processEvents_rename (ρ : String → String) (hInj : Function.Injective ρ)
    (hEmpty : ρ "" = "") (ctx : Ctx)
    (hOr : ∀ k, startIdsFixed ρ (ctx.oracle k)) :
    ∀ (evs : List AGUIEvent) (st : LoopState), startIdsFixed ρ evs →
      processEvents (renameCtx ρ ctx) (renameState ρ st) evs
        = renameState ρ (processEvents ctx st evs) := by
  intro evs
  induction evs with
  | nil => intro st _; rfl
  | cons e es ih =>
    intro st hfix
    show List.foldl (processEvent (renameCtx ρ ctx)) (renameState ρ st) (e :: es)
        = renameState ρ (List.foldl (processEvent ctx) st (e :: es))
    simp only [List.foldl_cons]
    rw [processEvent_rename ρ hInj hEmpty ctx st e hOr
          (fun mid he => hfix e (List.mem_cons_self e es) mid he)]
    exact ih _ (fun x hx mid he => hfix x (List.mem_cons_of_mem e hx) mid he)

/-- C9 (amended): the reducer is deterministic up to the freshly generated
ids.  If an injective renaming `ρ` fixes the empty string, every pre-existing
message id and every event-carried text-message id, and carries the
`crypto.randomUUID` outputs of the first run onto those of the second,
then replaying the same
event streams yields the final message list of the second run as the `ρ`-renaming
of that of the first.  (As literally stated the claim fails: the generated ids
differ between replays, see the counterexample.) -/
theorem reducer_deterministic_up_to_ids
    (tools : List ToolDefinition) (s1 s2 : Nat → String) (oracle : Nat → List AGUIEvent)
    (hook : HookState) (content : String) (ρ : String → String)
    (hInj : Function.Injective ρ) (hEmpty : ρ "" = "")
    (hHook : ∀ m ∈ hook.messages, ρ m.id = m.id)
    (hOr : ∀ k, startIdsFixed ρ (oracle k))
    (hSup : ∀ k, ρ (s1 k) = s2 k) :
    (sendMessage tools s2 oracle hook content).state.messages
      = ((sendMessage tools s1 oracle hook content).state.messages).map (renameMsg ρ) := by
  have hs2 : s2 = fun k => ρ (s1 k) := by
    funext k
    exact (hSup k).symm
  subst hs2
  have hmapHook : hook.messages.map (renameMsg ρ) = hook.messages := by
    have h : hook.messages.map (renameMsg ρ) = hook.messages.map id := by
      apply List.map_congr_left
      intro m hm
      simp [renameMsg, hHook m hm]
    rw [h, List.map_id]
  have hctx : renameCtx ρ
      { tools := tools, supply := s1, oracle := oracle,
        allMessages := hook.messages ++ [{ id := s1 0, role := .user, content := content }],
        userMessage := { id := s1 0, role := .user, content := content } }
      = { tools := tools, supply := fun k => ρ (s1 k), oracle := oracle,
          allMessages := hook.messages
            ++ [{ id := ρ (s1 0), role := .user, content := content }],
          userMessage := { id := ρ (s1 0), role := .user, content := content } } := by
    simp [renameCtx, renameMsg, hmapHook]
  have hinit : renameState ρ
      { messages := hook.messages ++ [{ id := s1 0, role := .user, content := content }],
        error := none, currentMessageId := "", currentContent := "",
        currentToolCallId := "", currentToolName := "", currentToolArgs := "",
        pendingToolCalls := [], ctr := 1,
        chatCalls := [hook.messages ++ [{ id := s1 0, role := .user, content := content }]],
        toolInvocations := [] }
      = { messages := hook.messages ++ [{ id := ρ (s1 0), role := .user, content := content }],
          error := none, currentMessageId := "", currentContent := "",
          currentToolCallId := "", currentToolName := "", currentToolArgs := "",
          pendingToolCalls := [], ctr := 1,
          chatCalls := [hook.messages
            ++ [{ id := ρ (s1 0), role := .user, content := content }]],
          toolInvocations := [] } := by
    simp [renameState, renameMsg, hmapHook, hEmpty]
  have key : processEvents
      { tools := tools, supply := fun k => ρ (s1 k), oracle := oracle,
        allMessages := hook.messages
          ++ [{ id := ρ (s1 0), role := .user, content := content }],
        userMessage := { id := ρ (s1 0), role := .user, content := content } }
      { messages := hook.messages ++ [{ id := ρ (s1 0), role := .user, content := content }],
        error := none, currentMessageId := "", currentContent := "",
        currentToolCallId := "", currentToolName := "", currentToolArgs := "",
        pendingToolCalls := [], ctr := 1,
        chatCalls := [hook.messages
          ++ [{ id := ρ (s1 0), role := .user, content := content }]],
        toolInvocations := [] }
      (oracle 0)
      = renameState ρ (processEvents
          { tools := tools, supply := s1, oracle := oracle,
            allMessages := hook.messages
              ++ [{ id := s1 0, role := .user, content := content }],
            userMessage := { id := s1 0, role := .user, content := content } }
          { messages := hook.messages ++ [{ id := s1 0, role := .user, content := content }],
            error := none, currentMessageId := "", currentContent := "",
            currentToolCallId := "", currentToolName := "", currentToolArgs := "",
            pendingToolCalls := [], ctr := 1,
            chatCalls := [hook.messages
              ++ [{ id := s1 0, role := .user, content := content }]],
            toolInvocations := [] }
          (oracle 0)) := by
    rw [← hctx, ← hinit]
    exact processEvents_rename ρ hInj hEmpty _ hOr (oracle 0) _ (hOr 0)
  have e2 : (sendMessage tools (fun k => ρ (s1 k)) oracle hook content).state.messages
      = (processEvents
          { tools := tools, supply := fun k => ρ (s1 k), oracle := oracle,
            allMessages := hook.messages
              ++ [{ id := ρ (s1 0), role := .user, content := content }],
            userMessage := { id := ρ (s1 0), role := .user, content := content } }
          { messages := hook.messages
              ++ [{ id := ρ (s1 0), role := .user, content := content }],
            error := none, currentMessageId := "", currentContent := "",
            currentToolCallId := "", currentToolName := "", currentToolArgs := "",
            pendingToolCalls := [], ctr := 1,
            chatCalls := [hook.messages
              ++ [{ id := ρ (s1 0), role := .user, content := content }]],
            toolInvocations := [] }
          (oracle 0)).messages := rfl
  have e1 : (sendMessage tools s1 oracle hook content).state.messages
      = (processEvents
          { tools := tools, supply := s1, oracle := oracle,
            allMessages := hook.messages
              ++ [{ id := s1 0, role := .user, content := content }],
            userMessage := { id := s1 0, role := .user, content := content } }
          { messages := hook.messages
              ++ [{ id := s1 0, role := .user, content := content }],
            error := none, currentMessageId := "", currentContent := "",
            currentToolCallId := "", currentToolName := "", currentToolArgs := "",
            pendingToolCalls := [], ctr := 1,
            chatCalls := [hook.messages
              ++ [{ id := s1 0, role := .user, content := content }]],
            toolInvocations := [] }
          (oracle 0)).messages := rfl
  rw [e2, e1, key]
  simp [renameState]

/-- C9 witness: with the identity renaming (and hence an identical id
supply), the two replays coincide. -/
theorem reducer_deterministic_up_to_ids_witness :
    (sendMessage [] wSupply (fun _ => []) hook0 "hi").state.messages
      = ((sendMessage [] wSupply (fun _ => []) hook0 "hi").state.messages).map
          (renameMsg id) :=
  reducer_deterministic_up_to_ids [] wSupply wSupply (fun _ => []) hook0 "hi" id
    (fun _ _ h => h) rfl (fun _ _ => rfl)
    (fun _ e he => absurd he (List.not_mem_nil e))
    (fun _ => rfl)

/-- C9 counterexample: the same event list replayed from a fresh state with
the `crypto.randomUUID` outputs of two different runs yields different final
message lists — the generated user-message, assistant-message and tool-result
ids differ, so the reducer is not a function of the event sequence alone. -/
theorem reducer_replay_differs :
    (sendMessage [clockTool] (fun n => "a-" ++ toString n)
        (oracleOf [.toolCallStart "t1" "get_current_time", .toolCallEnd "t1"])
        hook0 "now").state.messages
      ≠ (sendMessage [clockTool] (fun n => "b-" ++ toString n)
          (oracleOf [.toolCallStart "t1" "get_current_time", .toolCallEnd "t1"])
          hook0 "now").state.messages := by
  decide

end Chatbot
